import Mathlib

/-!
Verification development for the bn-goloader plugin (`gohelpers.py`).

The Python source is shallowly embedded: the binary's virtual address
space is a finite association list from address to byte, pointer reads
return `Option`/`Except` values mirroring the BinaryReader API (which
returns `None` on a failed read and raises `ValueError` on an
unsupported width), and the stateful walk over the `.gopclntab` table
is an explicit fold threading the analysis-database state.  Uncaught
Python exceptions (e.g. a `TypeError` from doing arithmetic on `None`)
are modelled as `Except.error`.
-/

namespace GoLoader

/-- A byte value (0..255 in well-formed memories). -/
abbrev Byte := Nat

/-- The target's loaded memory image: finite map address to byte,
modelled as an association list. -/
abbrev Mem := List (Nat × Byte)

/-- Read one byte of the image, `none` when the address is unmapped. -/
def readByte (m : Mem) (a : Nat) : Option Byte :=
  (m.find? (fun q => q.1 == a)).map (fun q => q.2)

/-- Read up to `n` consecutive bytes starting at `a`, stopping at the
first unmapped address (the behaviour of `bv.read`, which returns the
readable prefix). -/
def readBytes (m : Mem) (a : Nat) : Nat → List Byte
  | 0 => []
  | n + 1 =>
    match readByte m a with
    | none => []
    | some b => b :: readBytes m (a + 1) n

/-- Little-endian decoding of a byte string to an unsigned integer. -/
def leDecode : List Byte → Nat
  | [] => 0
  | b :: rest => b + 256 * leDecode rest

/-- Read exactly `n` bytes at `a`, or fail. -/
def readExact (m : Mem) (a n : Nat) : Option (List Byte) :=
  let bs := readBytes m a n
  if bs.length = n then some bs else none

/-- BinaryReader-style exact read of an `n`-byte little-endian word
(`br.read32` / `br.read64`): `none` on a failed read. -/
def brRead (m : Mem) (a n : Nat) : Option Nat :=
  (readExact m a n).map leDecode

/-- GoHelper.get_pointer_at: seek and read a `size`-byte word (default
the session pointer width); widths other than 4 and 8 raise
`ValueError`, a failed read yields `none`. -/
def get_pointer_at (ptrSize : Nat) (m : Mem) (atAddr : Nat) (size : Option Nat) :
    Except String (Option Nat) :=
  let sz := size.getD ptrSize
  if sz = 8 then .ok (brRead m atAddr 8)
  else if sz = 4 then .ok (brRead m atAddr 4)
  else .error "Unsupported ptr_size"

/-- GoHelper.get_pointer_at_virt: read `ptr_size` bytes via `bv.read`
(which may return a short prefix) and decode by the length of the data
actually returned: 8 bytes as a 64-bit word, 4 bytes as a 32-bit word,
anything else raises `ValueError`. -/
def get_pointer_at_virt (ptrSize : Nat) (m : Mem) (addr : Nat) : Except String Nat :=
  let x := readBytes m addr ptrSize
  if x.length = 8 then .ok (leDecode x)
  else if x.length = 4 then .ok (leDecode x)
  else .error "Invalid size for pointer"

/-- Characters kept verbatim by the variable-name sanitizer: the regex
class `[a-zA-Z0-9.]`. -/
def isGoodChar (c : Char) : Bool :=
  (('a' ≤ c && c ≤ 'z') || ('A' ≤ c && c ≤ 'Z') || ('0' ≤ c && c ≤ '9')) || c == '.'

/-- santize_gofunc_name: `name.replace(" ", "")`, removing every space. -/
def santize_gofunc_name (s : String) : String :=
  ⟨s.data.filter (fun c => c != ' ')⟩

/-- First regex pass of sanitize_var_name: substitute `_` for every
character outside `[a-zA-Z0-9.]`. -/
def replaceUnderscore (l : List Char) : List Char :=
  l.map (fun c => if isGoodChar c then c else '_')

/-- Second regex pass of sanitize_var_name: collapse every run of two
or more underscores (`__+`) to a single underscore. -/
def compressUnderscore : List Char → List Char
  | [] => []
  | [c] => [c]
  | a :: b :: rest =>
    if a = '_' ∧ b = '_' then compressUnderscore (b :: rest)
    else a :: compressUnderscore (b :: rest)

/-- sanitize_var_name: the two regex substitutions in sequence. -/
def sanitize_var_name (s : String) : String :=
  ⟨compressUnderscore (replaceUnderscore s.data)⟩

/-- Modelled from the spec's words, for refinement comparison with
`sanitize_var_name`: replace each maximal run of characters other than
letters, digits, and `.` with a single underscore.  The flag records
whether the scan is inside a bad run whose underscore is already
emitted. -/
def specSanitizeAux : Bool → List Char → List Char
  | _, [] => []
  | inBad, c :: rest =>
    if isGoodChar c then c :: specSanitizeAux false rest
    else if inBad then specSanitizeAux true rest
    else '_' :: specSanitizeAux true rest

/-- Modelled from the spec: the maximal-run replacement, starting
outside any run. -/
def specSanitizeData (l : List Char) : List Char :=
  specSanitizeAux false l

/-- Contents of the `log_warn` at the end of rename_functions: the
rejected name, the function address, the table-entry address inside
`.gopclntab`, and the computed name address. -/
structure Warn where
  name : String
  funcAddr : Nat
  entryAddr : Nat
  nameAddr : Nat
deriving DecidableEq, Repr

/-- The analysis-database state threaded through the table walk:
functions present, user symbols defined, the `renamed` counter, and
the warnings logged so far. -/
structure WalkSt where
  functions : List Nat
  symbols : List (Nat × String)
  renamed : Nat
  warns : List Warn
deriving DecidableEq, Repr

/-- The fixed namespace tag prepended to every accepted go name. -/
def gofuncMarker : String := "go."

/-- cstrAux reads characters until a NUL byte; `none` when an unmapped
address is reached first (not a C string) or the fuel runs out. -/
def cstrAux (m : Mem) : Nat → Nat → Option (List Char)
  | 0, _ => none
  | fuel + 1, a =>
    match readByte m a with
    | none => none
    | some 0 => some []
    | some b => (cstrAux m fuel (a + 1)).map (fun cs => Char.ofNat b :: cs)

/-- bv.get_ascii_string_at, modelled from the spec's read_cstring
contract: the ASCII bytes up to the first NUL, or no string when the
address is unmapped or immediately NUL. -/
def get_ascii_string_at (m : Mem) (a : Nat) : Option String :=
  match cstrAux m (m.length + 1) a with
  | none => none
  | some [] => none
  | some cs => some ⟨cs⟩

/-- Loop body of FunctionRenamer.rename_functions (lines 107-139): read
the two entry pointers and the 4-byte name offset (a `None` from a
failed read crashes the run with a TypeError when used, modelled as an
error), look up the name string (no string: skip the entry), get or
create the function at `func_addr`, then either define the prefixed
symbol or log a warning for a too-short raw name. -/
def processEntry (p : Nat) (m : Mem) (base : Nat) (st : WalkSt) (addr : Nat) :
    Except String WalkSt :=
  match get_pointer_at p m addr none with
  | .error e => .error e
  | .ok none => .error "TypeError"
  | .ok (some func_addr) =>
    match get_pointer_at p m (addr + p) none with
    | .error e => .error e
    | .ok none => .error "TypeError"
    | .ok (some entry_offset) =>
      match get_pointer_at p m (base + entry_offset + p) (some 4) with
      | .error e => .error e
      | .ok none => .error "TypeError"
      | .ok (some name_str_offset) =>
        let name_addr := base + name_str_offset
        match get_ascii_string_at m name_addr with
        | none => .ok st
        | some name =>
          let st1 := if func_addr ∈ st.functions then st
                     else { st with functions := func_addr :: st.functions }
          if 2 < name.length then
            .ok { st1 with
                  symbols := (func_addr, gofuncMarker ++ santize_gofunc_name name)
                               :: st1.symbols,
                  renamed := st1.renamed + 1 }
          else
            .ok { st1 with warns := ⟨name, func_addr, addr, name_addr⟩ :: st1.warns }

/-- Python `range(start, stop, step)` for a positive step. -/
def pyRange (start stop step : Nat) : List Nat :=
  (List.range ((stop - start + step - 1) / step)).map (fun i => start + i * step)

/-- The sequence of table-entry addresses rename_functions iterates
over: `range(size_addr + ptr_size, base_addr + size * ptr_size * 2,
2 * ptr_size)`. -/
def entryAddrs (base size p : Nat) : List Nat :=
  pyRange (base + 8 + p) (base + size * p * 2) (2 * p)

/-- The per-entry fold of rename_functions over the entry addresses. -/
def walkFold (p : Nat) (m : Mem) (base : Nat) (addrs : List Nat) (st : WalkSt) :
    Except String WalkSt :=
  addrs.foldlM (processEntry p m base) st

/-- One past the largest mapped address of the image. -/
def memBound (m : Mem) : Nat :=
  m.foldr (fun q acc => max (q.1 + 1) acc) 0

/-- Whether the byte pattern occurs verbatim at address `a`. -/
def matchAt (m : Mem) (a : Nat) (pat : List Byte) : Bool :=
  readExact m a pat.length == some pat

/-- Linear scan for the pattern: first match at or after `a`. -/
def scanFrom (m : Mem) (pat : List Byte) : Nat → Nat → Option Nat
  | 0, _ => none
  | fuel + 1, a => if matchAt m a pat then some a else scanFrom m pat fuel (a + 1)

/-- bv.find_next_data: address of the first occurrence of the pattern
at or after `start`. -/
def find_next_data (m : Mem) (start : Nat) (pat : List Byte) : Option Nat :=
  scanFrom m pat (memBound m + 1) start

/-- The 6-byte pattern "\xfb\xff\xff\xff\x00\x00" searched for when the
.gopclntab section is absent. -/
def pclntabSignature : List Byte := [0xfb, 0xff, 0xff, 0xff, 0x00, 0x00]

/-- The slice of the BinaryView consulted by FunctionRenamer. -/
structure BinView where
  mem : Mem
  sections : List (String × Nat)
  functions : List Nat
  symbols : List (Nat × String)
deriving Repr

/-- Locating the table (lines 86-96): the `.gopclntab` section's start
if the section exists, otherwise the first signature match from 0. -/
def locate (bv : BinView) : Option Nat :=
  match bv.sections.lookup ".gopclntab" with
  | some s => some s
  | none => find_next_data bv.mem 0 pclntabSignature

/-- Outcome of a FunctionRenamer.rename_functions run: the database
state it leaves behind and whether the fatal "section not found" alert
was raised. -/
structure RenResult where
  functions : List Nat
  symbols : List (Nat × String)
  renamed : Nat
  warns : List Warn
  fatalAlert : Bool
deriving DecidableEq, Repr

/-- FunctionRenamer.rename_functions: locate the table (alert and
return untouched on failure), read the size field at `base_addr + 8`
(a failed read crashes at the entry-count log line), then fold the
per-entry step over the entry addresses. -/
def rename_functions (p : Nat) (bv : BinView) : Except String RenResult :=
  match locate bv with
  | none => .ok ⟨bv.functions, bv.symbols, 0, [], true⟩
  | some base =>
    match get_pointer_at p bv.mem (base + 8) none with
    | .error e => .error e
    | .ok none => .error "TypeError"
    | .ok (some size) =>
      match walkFold p bv.mem base (entryAddrs base size p)
              ⟨bv.functions, bv.symbols, 0, []⟩ with
      | .error e => .error e
      | .ok st => .ok ⟨st.functions, st.symbols, st.renamed, st.warns, false⟩

/-- The low-level IL operation classes the scanner distinguishes. -/
inductive LLOp
  | llil_call
  | llil_push
  | llil_other
deriving DecidableEq, Repr

/-- A decoded low-level IL instruction: its operation class and, when
its source operand is a constant, that constant value. -/
structure Inst where
  op : LLOp
  srcConst : Option Nat
deriving DecidableEq, Repr

/-- A function body as a partial map from address to decoded IL
instruction; a missing address raises IndexError in the host API. -/
abbrev ILFun := List (Nat × Inst)

def ilAt (fn : ILFun) (a : Nat) : Option Inst :=
  (fn.find? (fun q => q.1 == a)).map (fun q => q.2)

/-- One cross-reference site to `go.runtime.newproc`: the referencing
address and the function body around it (none when no basic block
covers the address). -/
structure Site where
  addr : Nat
  fn : Option ILFun
deriving Repr

/-- Inner `for i in range(1, 7)` probe of NewProcRenamer.rename (lines
171-178): up to six attempts, each first incrementing `j` and then
trying `get_low_level_il_at(addr - j)`; on success break with the
instruction, on IndexError keep probing.  `last` is the value the
Python variable `inst` retains from the previous outer iteration: it
is appended unchanged when all six probes fail. -/
def probeInst (fn : ILFun) (addr : Nat) : Nat → Nat → Option Inst → Nat × Option Inst
  | 0, j, last => (j, last)
  | fuel + 1, j, last =>
    match ilAt fn (addr - (j + 1)) with
    | some i => (j + 1, some i)
    | none => probeInst fn addr fuel (j + 1) last

/-- The `while len(params) < 2` collection loop (lines 169-179): two
probes sharing the running offset `j`; the first starts from `j = 1`
with `inst` unbound (a NameError crash when all probes fail). -/
def collectParams (fn : ILFun) (addr : Nat) : Except String (Inst × Inst) :=
  match probeInst fn addr 6 1 none with
  | (_, none) => .error "NameError"
  | (j1, some i1) =>
    match probeInst fn addr 6 j1 (some i1) with
    | (_, none) => .error "NameError"
    | (_, some i2) => .ok (i1, i2)

/-- The push check of lines 183-186: `skip = True`, then for each
collected instruction `skip` is set to `True` again when it is not an
LLIL_PUSH; the site is processed only when `skip` ends up `False`. -/
def skipCheck (params : List Inst) : Bool :=
  params.foldl (fun skip inst => if inst.op ≠ LLOp.llil_push then true else skip) true

/-- The slice of the BinaryView consulted by NewProcRenamer: memory,
named functions, existing symbols, the `go.runtime.newproc` symbol
address, and the code references to it. -/
structure ScanBV where
  mem : Mem
  functions : List (Nat × String)
  symbols : List (Nat × String)
  newprocSym : Option Nat
  xrefs : List Site
deriving Repr

/-- Scanner state: symbols defined so far, data vars declared, and the
`renamed` counter. -/
structure ScanSt where
  symbols : List (Nat × String)
  dataVars : List Nat
  renamed : Nat
deriving DecidableEq, Repr

/-- Per-xref body of NewProcRenamer.rename (lines 158-208). -/
def processSite (ptrSize : Nat) (m : Mem) (functions : List (Nat × String))
    (st : ScanSt) (site : Site) : Except String ScanSt :=
  match site.fn with
  | none => .error "AttributeError"
  | some fn =>
    match ilAt fn site.addr with
    | none => .error "IndexError"
    | some callinst =>
      if callinst.op ≠ LLOp.llil_call then .ok st
      else
        match collectParams fn site.addr with
        | .error e => .error e
        | .ok (i1, i2) =>
          if skipCheck [i1, i2] then .ok st
          else
            match i2.srcConst with
            | none => .error "AttributeError"
            | some fptr =>
              if fptr ≠ 0 ∧ st.symbols.lookup fptr = none then
                match get_pointer_at_virt ptrSize m fptr with
                | .error e => .error e
                | .ok a =>
                  match functions.lookup a with
                  | none => .ok st
                  | some tname =>
                    .ok { symbols :=
                            (a, "fptr_" ++ sanitize_var_name tname) :: st.symbols,
                          dataVars := a :: st.dataVars,
                          renamed := st.renamed + 1 }
              else .ok st

/-- NewProcRenamer.rename: crash when the `go.runtime.newproc` symbol
is absent (attribute access on None), otherwise fold the per-site step
over the code references to it. -/
def newproc_rename (ptrSize : Nat) (bv : ScanBV) : Except String ScanSt :=
  match bv.newprocSym with
  | none => .error "AttributeError"
  | some _ => bv.xrefs.foldlM (processSite ptrSize bv.mem bv.functions)
      ⟨bv.symbols, [], 0⟩

/-- Four mapped bytes at addresses 0..3 encoding the value 1: an
8-byte read here returns a short 4-byte prefix. -/
def memShort : Mem := [(0, 1), (1, 0), (2, 0), (3, 0)]

/-- A one-entry table fragment for pointer width 4 at base 0 (entry at
address 12): func_addr 500, entry_offset 20, name offset 40, and the
raw name "ab" at address 40. -/
def memAB : Mem :=
  [(12, 244), (13, 1), (14, 0), (15, 0),
   (16, 20), (17, 0), (18, 0), (19, 0),
   (24, 40), (25, 0), (26, 0), (27, 0),
   (40, 97), (41, 98), (42, 0)]

/-- Same table fragment with raw name "a b " (length 4, two characters
after space removal). -/
def memSpace : Mem :=
  [(12, 244), (13, 1), (14, 0), (15, 0),
   (16, 20), (17, 0), (18, 0), (19, 0),
   (24, 40), (25, 0), (26, 0), (27, 0),
   (40, 97), (41, 32), (42, 98), (43, 32), (44, 0)]

/-- Same table fragment with an immediately-NUL name string. -/
def memNul : Mem :=
  [(12, 244), (13, 1), (14, 0), (15, 0),
   (16, 20), (17, 0), (18, 0), (19, 0),
   (24, 40), (25, 0), (26, 0), (27, 0),
   (40, 0)]

/-- A located table (section at 0, size field 4) whose first entry
pointer at address 12 is unmapped while a later entry at 20 is
mapped. -/
def bvAbort : BinView :=
  ⟨[(8, 4), (9, 0), (10, 0), (11, 0), (20, 1), (21, 0), (22, 0), (23, 0)],
   [(".gopclntab", 0)], [], []⟩

/-- A view whose `.gopclntab` section exists at 64. -/
def bvSection : BinView := ⟨[], [(".gopclntab", 64)], [7], [(5, "x")]⟩

/-- A view with no `.gopclntab` section but the 6-byte table signature
mapped at address 10. -/
def bvSig : BinView :=
  ⟨[(10, 0xfb), (11, 0xff), (12, 0xff), (13, 0xff), (14, 0), (15, 0)], [], [], []⟩

/-- A view with neither the section nor the signature. -/
def bvNone : BinView := ⟨[(0, 1)], [], [7], [(5, "x")]⟩

/-- The IL around a newproc call site at 100: the call, preceded by a
push at 98 and a push of the constant 200 at 97. -/
def il5 : ILFun :=
  [(100, ⟨LLOp.llil_call, none⟩),
   (98, ⟨LLOp.llil_push, none⟩),
   (97, ⟨LLOp.llil_push, some 200⟩)]

/-- Bytes at 200..207 encoding the address 300. -/
def scanMem : Mem :=
  [(200, 44), (201, 1), (202, 0), (203, 0),
   (204, 0), (205, 0), (206, 0), (207, 0)]

/-- A scanner view satisfying every condition of the resolve path: the
xref decodes to a call preceded by two pushes, the second with
constant source 200, which dereferences to 300 where function
main.foo lives, and no symbol exists at 200. -/
def bvScan : ScanBV :=
  ⟨scanMem, [(300, "main.foo")], [], some 400, [⟨100, some il5⟩]⟩

theorem replace_nil : replaceUnderscore [] = [] := rfl

theorem replace_cons (c : Char) (l : List Char) :
    replaceUnderscore (c :: l) =
      (if isGoodChar c then c else '_') :: replaceUnderscore l := rfl

theorem compress_cons2 (a b : Char) (l : List Char) :
    compressUnderscore (a :: b :: l) =
      if a = '_' ∧ b = '_' then compressUnderscore (b :: l)
      else a :: compressUnderscore (b :: l) := rfl

theorem compress_cons_ne (c : Char) (l : List Char) (h : c ≠ '_') :
    compressUnderscore (c :: l) = c :: compressUnderscore l := by
  cases l with
  | nil => rfl
  | cons b rest =>
    rw [compress_cons2, if_neg]
    intro hc
    exact h hc.1

theorem good_ne_underscore (c : Char) (h : isGoodChar c = true) : c ≠ '_' := by
  intro he
  subst he
  simp [isGoodChar] at h

theorem bool_eq_false_of_not {b : Bool} (h : ¬ b = true) : b = false := by
  cases b
  · rfl
  · exact absurd rfl h

theorem underscore_bad : isGoodChar '_' = false := by
  rfl

theorem sanitize_aux_spec (l : List Char) :
    compressUnderscore (replaceUnderscore l) = specSanitizeAux false l ∧
    compressUnderscore ('_' :: replaceUnderscore l) =
      '_' :: specSanitizeAux true l := by
  induction l with
  | nil => exact ⟨rfl, rfl⟩
  | cons c rest ih =>
    by_cases hc : isGoodChar c
    · have hne : c ≠ '_' := good_ne_underscore c hc
      constructor
      · rw [replace_cons, if_pos hc, compress_cons_ne c _ hne, ih.1]
        simp [specSanitizeAux, hc]
      · rw [replace_cons, if_pos hc, compress_cons2,
          if_neg (fun h => hne h.2), compress_cons_ne c _ hne, ih.1]
        simp [specSanitizeAux, hc]
    · have hb : isGoodChar c = false := bool_eq_false_of_not hc
      constructor
      · rw [replace_cons, if_neg hc, ih.2]
        simp [specSanitizeAux, hb]
      · rw [replace_cons, if_neg hc, compress_cons2, if_pos ⟨rfl, rfl⟩, ih.2]
        simp [specSanitizeAux, hb]

theorem sanitize_eq_spec (l : List Char) :
    compressUnderscore (replaceUnderscore l) = specSanitizeData l :=
  (sanitize_aux_spec l).1

theorem specSanitizeAux_idem (l : List Char) :
    specSanitizeAux false (specSanitizeAux false l) = specSanitizeAux false l ∧
    specSanitizeAux true (specSanitizeAux true l) = specSanitizeAux true l := by
  induction l with
  | nil => exact ⟨rfl, rfl⟩
  | cons c rest ih =>
    by_cases hc : isGoodChar c
    · constructor
      · simp [specSanitizeAux, hc, ih.1]
      · simp [specSanitizeAux, hc, ih.1]
    · have hb : isGoodChar c = false := bool_eq_false_of_not hc
      constructor
      · simp [specSanitizeAux, hb, underscore_bad, ih.2]
      · simp [specSanitizeAux, hb, ih.2]

theorem specSanitize_idem (l : List Char) :
    specSanitizeData (specSanitizeData l) = specSanitizeData l :=
  (specSanitizeAux_idem l).1

theorem filter_idem (p : Char → Bool) :
    ∀ l : List Char, (l.filter p).filter p = l.filter p := by
  intro l
  induction l with
  | nil => rfl
  | cons c rest ih =>
    by_cases hc : p c
    · simp [List.filter_cons, hc, ih]
    · simp [List.filter_cons, hc, ih]

theorem sanitize_var_name_spec (s : String) :
    sanitize_var_name s = ⟨specSanitizeData s.data⟩ := by
  unfold sanitize_var_name
  exact congrArg String.mk (sanitize_eq_spec s.data)

/-- C8: sanitize_var_name replaces each maximal run of characters other
than ASCII letters, digits and '.' with one underscore (the
spec-modelled `specSanitizeData`), and in particular collapses
"a  --b" and "a___b" to "a_b". -/
theorem C8_sanitize_data_run_collapse :
    (∀ s : String, sanitize_var_name s = ⟨specSanitizeData s.data⟩) ∧
    sanitize_var_name "a  --b" = "a_b" ∧
    sanitize_var_name "a___b" = "a_b" :=
  ⟨sanitize_var_name_spec, by rfl, by rfl⟩

/-- C9: both name sanitizers are idempotent: applying
santize_gofunc_name or sanitize_var_name twice gives the same result
as applying it once, for every input string. -/
theorem C9_sanitizers_idempotent (s : String) :
    santize_gofunc_name (santize_gofunc_name s) = santize_gofunc_name s ∧
    sanitize_var_name (sanitize_var_name s) = sanitize_var_name s := by
  constructor
  · show (⟨((s.data.filter _).filter _ : List Char)⟩ : String) = _
    exact congrArg String.mk (filter_idem _ s.data)
  · rw [sanitize_var_name_spec s, sanitize_var_name_spec]
    show (⟨specSanitizeData (specSanitizeData s.data)⟩ : String) = _
    exact congrArg String.mk (specSanitize_idem s.data)

theorem leDecode_lt (bs : List Byte) (h : ∀ b ∈ bs, b < 256) :
    leDecode bs < 256 ^ bs.length := by
  induction bs with
  | nil => simp [leDecode]
  | cons b rest ih =>
    have hb : b < 256 := h b (List.mem_cons_self b rest)
    have hr : leDecode rest < 256 ^ rest.length :=
      ih (fun x hx => h x (List.mem_cons_of_mem b hx))
    have hs : leDecode rest + 1 ≤ 256 ^ rest.length := hr
    simp only [leDecode, List.length_cons, pow_succ]
    calc b + 256 * leDecode rest
        = 256 * leDecode rest + b := Nat.add_comm _ _
      _ < 256 * leDecode rest + 256 := Nat.add_lt_add_left hb _
      _ = 256 * (leDecode rest + 1) := by rw [Nat.mul_add, Nat.mul_one]
      _ ≤ 256 * 256 ^ rest.length := Nat.mul_le_mul_left 256 hs
      _ = 256 ^ rest.length * 256 := Nat.mul_comm _ _

/-- C7 counterexample: with pointer width 8 and only 4 mapped bytes at
the address, get_pointer_at_virt decodes the short read as a 4-byte
little-endian value instead of failing — the claim says a short read
is never decoded at a narrower width. -/
theorem C7_short_read_decoded :
    (readBytes memShort 0 8).length = 4 ∧
    get_pointer_at_virt 8 memShort 0 = .ok 1 :=
  ⟨by decide, rfl⟩

/-- C7 amended: get_pointer_at reads exactly 8 (resp. 4) bytes and
decodes them little-endian, yields no value (never a narrower decode)
on a short read, and raises an explicit unsupported-width error for
any other width; the decoded value fits the width.  get_pointer_at_virt
however dispatches on the number of bytes actually read, so a 4-byte
short read under pointer width 8 is decoded at width 4. -/
theorem C7_read_pointer_amended (m : Mem) (a : Nat) :
    ((readBytes m a 8).length = 8 →
      get_pointer_at 8 m a none = .ok (some (leDecode (readBytes m a 8)))) ∧
    ((readBytes m a 8).length ≠ 8 → get_pointer_at 8 m a none = .ok none) ∧
    ((readBytes m a 4).length = 4 →
      get_pointer_at 4 m a none = .ok (some (leDecode (readBytes m a 4)))) ∧
    ((readBytes m a 4).length ≠ 4 → get_pointer_at 4 m a none = .ok none) ∧
    (∀ p sz, sz ≠ 4 → sz ≠ 8 →
      get_pointer_at p m a (some sz) = .error "Unsupported ptr_size") ∧
    (∀ p, (readBytes m a p).length = 4 →
      get_pointer_at_virt p m a = .ok (leDecode (readBytes m a p))) ∧
    (∀ bs : List Byte, (∀ b ∈ bs, b < 256) → leDecode bs < 256 ^ bs.length) := by
  refine ⟨?_, ?_, ?_, ?_, ?_, ?_, leDecode_lt⟩
  · intro h
    simp [get_pointer_at, brRead, readExact, h]
  · intro h
    simp [get_pointer_at, brRead, readExact, h]
  · intro h
    simp [get_pointer_at, brRead, readExact, h]
  · intro h
    simp [get_pointer_at, brRead, readExact, h]
  · intro p sz h4 h8
    simp [get_pointer_at, h4, h8]
  · intro p h
    have h8 : (readBytes m a p).length ≠ 8 := by omega
    simp [get_pointer_at_virt, h, h8]

/-- C7 witness: the amended contract evaluated concretely: a failed
exact read yields no value, width 2 is an explicit error, and the
short read in memShort is decoded at width 4. -/
theorem C7_read_pointer_amended_witness :
    get_pointer_at 8 memShort 0 none = .ok none ∧
    get_pointer_at 4 memShort 0 (some 2) = .error "Unsupported ptr_size" ∧
    get_pointer_at_virt 8 memShort 0 = .ok (leDecode (readBytes memShort 0 8)) ∧
    leDecode (readBytes memShort 0 8) = 1 := by
  obtain ⟨_, h2, _, _, h5, h6, _⟩ := C7_read_pointer_amended memShort 0
  exact ⟨h2 (by decide), h5 4 2 (by decide) (by decide), h6 8 (by decide), by decide⟩

theorem scanFrom_some_spec (m : Mem) (pat : List Byte) :
    ∀ fuel a r, scanFrom m pat fuel a = some r →
      matchAt m r pat = true ∧ a ≤ r ∧
        ∀ b, a ≤ b → b < r → matchAt m b pat = false := by
  intro fuel
  induction fuel with
  | zero => intro a r h; cases h
  | succ n ih =>
    intro a r h
    by_cases hm : matchAt m a pat
    · have he : a = r := by
        simp [scanFrom, hm] at h
        exact h
      subst he
      exact ⟨hm, Nat.le.refl, fun b hab hbr => absurd hab (Nat.not_le_of_lt hbr)⟩
    · have hb : matchAt m a pat = false := bool_eq_false_of_not hm
      simp only [scanFrom, hb, Bool.false_eq_true, if_false] at h
      obtain ⟨h1, h2, h3⟩ := ih (a + 1) r h
      refine ⟨h1, Nat.le_trans (Nat.le_succ a) h2, fun b hab hbr => ?_⟩
      rcases Nat.eq_or_lt_of_le hab with he | hlt
      · rw [← he]
        exact hb
      · exact h3 b hlt hbr

theorem scanFrom_complete (m : Mem) (pat : List Byte) :
    ∀ fuel a c, a ≤ c → c < a + fuel → matchAt m c pat = true →
      ∃ r, scanFrom m pat fuel a = some r := by
  intro fuel
  induction fuel with
  | zero => intro a c h1 h2 _; omega
  | succ n ih =>
    intro a c h1 h2 hc
    by_cases hm : matchAt m a pat
    · exact ⟨a, by simp [scanFrom, hm]⟩
    · have hb : matchAt m a pat = false := bool_eq_false_of_not hm
      have hne : a ≠ c := by
        intro he
        rw [he] at hb
        rw [hb] at hc
        cases hc
      have h1' : a + 1 ≤ c := Nat.lt_of_le_of_ne h1 hne
      obtain ⟨r, hr⟩ := ih (a + 1) c h1' (by omega) hc
      exact ⟨r, by simp [scanFrom, hb, hr]⟩

theorem mem_key_lt_memBound (m : Mem) :
    ∀ q, q ∈ m → q.1 < memBound m := by
  induction m with
  | nil => intro q hq; cases hq
  | cons e rest ih =>
    intro q hq
    rcases List.mem_cons.mp hq with he | hm
    · subst he
      simp only [memBound, List.foldr_cons]
      omega
    · have hr := ih q hm
      simp only [memBound, List.foldr_cons]
      simp only [memBound] at hr
      omega

theorem readByte_some_lt_memBound (m : Mem) (a : Nat) (b : Byte)
    (h : readByte m a = some b) : a < memBound m := by
  unfold readByte at h
  cases hf : m.find? (fun q => q.1 == a) with
  | none => rw [hf] at h; cases h
  | some q =>
    have hmem : q ∈ m := List.mem_of_find?_eq_some hf
    have hbeq := List.find?_some hf
    have hkey : q.1 = a := eq_of_beq hbeq
    rw [← hkey]
    exact mem_key_lt_memBound m q hmem

theorem matchAt_lt_memBound (m : Mem) (c : Nat) (pat : List Byte)
    (hp : pat ≠ []) (h : matchAt m c pat = true) : c < memBound m := by
  have he : readExact m c pat.length = some pat := by
    unfold matchAt at h
    exact eq_of_beq h
  have hbs : readBytes m c pat.length = pat := by
    simp only [readExact] at he
    split at he
    · exact Option.some.inj he
    · cases he
  cases hq : pat with
  | nil => exact absurd hq hp
  | cons b rest =>
    subst hq
    simp only [List.length_cons] at hbs
    cases hrb : readByte m c with
    | none =>
      rw [show readBytes m c (rest.length + 1) = [] by simp [readBytes, hrb]] at hbs
      cases hbs
    | some x => exact readByte_some_lt_memBound m c x hrb

/-- C6: locate first tries the `.gopclntab` section and returns its
start; with no section but the 6-byte signature present somewhere, it
returns the first (least-address) match of a scan from 0; and when
locate fails, rename_functions leaves the database untouched (same
functions and symbols, rename count 0) and raises the fatal alert. -/
theorem C6_locate_fallback_abort (p : Nat) (bv : BinView) :
    (∀ s, bv.sections.lookup ".gopclntab" = some s → locate bv = some s) ∧
    (bv.sections.lookup ".gopclntab" = none →
      ∀ c, matchAt bv.mem c pclntabSignature = true →
        ∃ r, locate bv = some r ∧ matchAt bv.mem r pclntabSignature = true ∧
          r ≤ c ∧ ∀ b, b < r → matchAt bv.mem b pclntabSignature = false) ∧
    (locate bv = none →
      rename_functions p bv = .ok ⟨bv.functions, bv.symbols, 0, [], true⟩) := by
  refine ⟨?_, ?_, ?_⟩
  · intro s hs
    unfold locate
    rw [hs]
  · intro hn c hc
    have hcb : c < memBound bv.mem :=
      matchAt_lt_memBound bv.mem c pclntabSignature (by decide) hc
    obtain ⟨r, hr⟩ := scanFrom_complete bv.mem pclntabSignature
      (memBound bv.mem + 1) 0 c (Nat.zero_le c) (by omega) hc
    obtain ⟨h1, _, h3⟩ := scanFrom_some_spec bv.mem pclntabSignature _ _ _ hr
    have hloc : locate bv = some r := by
      unfold locate
      rw [hn]
      exact hr
    refine ⟨r, hloc, h1, ?_, fun b hb => h3 b (Nat.zero_le b) hb⟩
    by_contra hgt
    have hcr : c < r := Nat.lt_of_not_le hgt
    have := h3 c (Nat.zero_le c) hcr
    rw [this] at hc
    cases hc
  · intro hn
    unfold rename_functions
    rw [hn]

/-- C6 witness: the three conjuncts at concrete views: a view with the
section at 64, a view with only the signature at 10, and a view with
neither, whose run changes nothing and raises the alert. -/
theorem C6_locate_fallback_abort_witness :
    locate bvSection = some 64 ∧
    (∃ r, locate bvSig = some r ∧
      matchAt bvSig.mem r pclntabSignature = true ∧ r ≤ 10) ∧
    rename_functions 4 bvNone = .ok ⟨[7], [(5, "x")], 0, [], true⟩ := by
  refine ⟨(C6_locate_fallback_abort 4 bvSection).1 64 rfl, ?_, ?_⟩
  · obtain ⟨r, h1, h2, h3, _⟩ :=
      (C6_locate_fallback_abort 4 bvSig).2.1 rfl 10 (by decide)
    exact ⟨r, h1, h2, h3⟩
  · exact (C6_locate_fallback_abort 4 bvNone).2.2 (by rfl)

theorem foldl_skip_true (l : List Inst) :
    ∀ b : Bool, b = true →
      l.foldl (fun skip inst => if inst.op ≠ LLOp.llil_push then true else skip) b
        = true := by
  induction l with
  | nil => intro b hb; simpa using hb
  | cons i rest ih =>
    intro b hb
    simp only [List.foldl_cons]
    apply ih
    by_cases hop : i.op ≠ LLOp.llil_push
    · rw [if_pos hop]
    · rw [if_neg hop]
      exact hb

theorem skipCheck_true (params : List Inst) : skipCheck params = true :=
  foldl_skip_true params true rfl

theorem processSite_ok_eq (ptrSize : Nat) (m : Mem) (fns : List (Nat × String))
    (st : ScanSt) (site : Site) (st' : ScanSt)
    (h : processSite ptrSize m fns st site = .ok st') : st' = st := by
  unfold processSite at h
  split at h
  · cases h
  · split at h
    · cases h
    · split at h
      · exact (Except.ok.inj h).symm
      · split at h
        · cases h
        · split at h
          · exact (Except.ok.inj h).symm
          · rename_i hskip
            exact absurd (skipCheck_true _) hskip

theorem newproc_fold_ok (ptrSize : Nat) (m : Mem) (fns : List (Nat × String)) :
    ∀ (sites : List Site) (st st' : ScanSt),
      sites.foldlM (processSite ptrSize m fns) st = .ok st' → st' = st := by
  intro sites
  induction sites with
  | nil =>
    intro st st' h
    exact (Except.ok.inj h).symm
  | cons s rest ih =>
    intro st st' h
    rw [List.foldlM_cons] at h
    cases hps : processSite ptrSize m fns st s with
    | error e =>
      rw [hps] at h
      cases h
    | ok st1 =>
      rw [hps] at h
      have h2 : rest.foldlM (processSite ptrSize m fns) st1 = .ok st' := h
      rw [processSite_ok_eq ptrSize m fns st s st1 hps] at h2
      exact ih st st' h2

/-- C5: the push check of NewProcRenamer.rename initializes `skip` to
True and never clears it, so every cross-reference site is discarded:
even the concrete site at 100 that decodes to a call, whose two
collected preceding instructions are both pushes, whose second push
holds the constant 200 dereferencing to the existing function main.foo
at 300 with no symbol at 200, produces no fptr_ symbol, no data
variable, and a rename count of 0. -/
theorem C5_newproc_skip_bug :
    (∀ params : List Inst, skipCheck params = true) ∧
    ilAt il5 100 = some ⟨LLOp.llil_call, none⟩ ∧
    collectParams il5 100 =
      .ok (⟨LLOp.llil_push, none⟩, ⟨LLOp.llil_push, some 200⟩) ∧
    get_pointer_at_virt 8 scanMem 200 = .ok 300 ∧
    bvScan.functions.lookup 300 = some "main.foo" ∧
    bvScan.symbols.lookup 200 = none ∧
    newproc_rename 8 bvScan = .ok ⟨[], [], 0⟩ :=
  ⟨skipCheck_true, rfl, rfl, rfl, rfl, rfl, rfl⟩

/-- C5 general form: whenever the scan finishes normally, it has
defined no symbol, declared no data variable, and renamed nothing,
whatever the view contains. -/
theorem newproc_renames_nothing (ptrSize : Nat) (bv : ScanBV) (st' : ScanSt)
    (h : newproc_rename ptrSize bv = .ok st') :
    st' = ⟨bv.symbols, [], 0⟩ := by
  unfold newproc_rename at h
  cases hs : bv.newprocSym with
  | none => rw [hs] at h; cases h
  | some a =>
    rw [hs] at h
    exact newproc_fold_ok ptrSize bv.mem bv.functions bv.xrefs _ _ h

theorem lt_ceilDiv_iff (d step i : Nat) (h : 0 < step) :
    i < (d + step - 1) / step ↔ i * step < d := by
  have h1 : (d + step - 1) / step < i + 1 ↔ d + step - 1 < (i + 1) * step :=
    Nat.div_lt_iff_lt_mul h
  constructor
  · intro hi
    have h2 : ¬ (d + step - 1) / step < i + 1 := by omega
    rw [h1] at h2
    have h3 : (i + 1) * step ≤ d + step - 1 := by omega
    rw [Nat.succ_mul] at h3
    generalize i * step = x at h3 ⊢
    omega
  · intro hi
    have h3 : (i + 1) * step ≤ d + step - 1 := by
      rw [Nat.succ_mul]
      generalize hx : i * step = x at hi ⊢
      omega
    have h2 : ¬ d + step - 1 < (i + 1) * step := by omega
    rw [← h1] at h2
    omega

theorem pyRange_mem (start stop step a : Nat) (h : 0 < step) :
    a ∈ pyRange start stop step ↔ ∃ i, a = start + i * step ∧ a < stop := by
  unfold pyRange
  simp only [List.mem_map, List.mem_range]
  constructor
  · rintro ⟨i, hi, rfl⟩
    refine ⟨i, rfl, ?_⟩
    rw [lt_ceilDiv_iff _ _ _ h] at hi
    generalize hx : i * step = x at hi ⊢
    omega
  · rintro ⟨i, rfl, hlt⟩
    refine ⟨i, ?_, rfl⟩
    rw [lt_ceilDiv_iff _ _ _ h]
    generalize hx : i * step = x at hlt ⊢
    omega

/-- C3 counterexample: with base 0, raw_size 16, pointer width 8 the
walk visits address 240, which is not below base + raw_size *
pointer_width = 128 — so the iteration does not end there, and the
claimed end formula is not the source's arithmetic. -/
theorem C3_end_formula_cex :
    240 ∈ entryAddrs 0 16 8 ∧ ¬ (240 < 0 + 16 * 8) := by
  constructor
  · decide
  · decide

/-- C3 amended: the visited entry addresses are exactly the addresses
of the form base + 8 + p + i * (2 * p) lying below base + raw_size *
p * 2 — start and stride as the claim states, but the end bound
carries the extra factor 2 the source writes. -/
theorem C3_walk_bounds_amended (b s p a : Nat) (hp : 0 < p) :
    a ∈ entryAddrs b s p ↔
      ∃ i, a = b + 8 + p + i * (2 * p) ∧ a < b + s * p * 2 := by
  unfold entryAddrs
  exact pyRange_mem (b + 8 + p) (b + s * p * 2) (2 * p) a (by omega)

/-- C3 witness: the amended bound at a concrete table: address 48 is
entry index 2 of the width-8 table at base 0 with raw_size 16. -/
theorem C3_walk_bounds_amended_witness : 48 ∈ entryAddrs 0 16 8 :=
  (C3_walk_bounds_amended 0 16 8 48 (by decide)).mpr ⟨2, by decide, by decide⟩

/-- C1 counterexample: a well-formed one-entry table (raw_size 16 =
1 * 2 * 8 for pointer width 8) is walked over 15 entry addresses, not
1: the walk does not visit exactly entry_count entries. -/
theorem C1_visit_count_cex :
    16 = 1 * 2 * 8 ∧ (entryAddrs 0 16 8).length = 15 ∧
      ¬ (entryAddrs 0 16 8).length = 1 := by
  refine ⟨by decide, by decide, by decide⟩

/-- C1 amended: for a well-formed table (raw_size = entry_count * 2 *
pointer_width, pointer width 4 or 8, at least one entry) the walk
visits 2 * entry_count * pointer_width - 1 entry addresses; the first
entry_count of them are the table's entries in order, the i-th visited
address being base + 8 + pointer_width + i * 2 * pointer_width. -/
theorem C1_walk_visits_amended (b k p : Nat) (hp : p = 4 ∨ p = 8) (hk : 1 ≤ k) :
    (entryAddrs b (k * (2 * p)) p).length = 2 * k * p - 1 ∧
    ∀ i, i < k →
      (entryAddrs b (k * (2 * p)) p)[i]? = some (b + 8 + p + i * (2 * p)) := by
  constructor
  · rcases hp with rfl | rfl
    · simp only [entryAddrs, pyRange, List.length_map, List.length_range]
      omega
    · simp only [entryAddrs, pyRange, List.length_map, List.length_range]
      omega
  · intro i hi
    rcases hp with rfl | rfl
    · unfold entryAddrs pyRange
      rw [List.getElem?_map, List.getElem?_range (by omega)]
      rfl
    · unfold entryAddrs pyRange
      rw [List.getElem?_map, List.getElem?_range (by omega)]
      rfl

/-- C1 witness: the amended count at the concrete one-entry width-8
table: 15 visited addresses, the first being the entry at 16. -/
theorem C1_walk_visits_amended_witness :
    (entryAddrs 0 16 8).length = 15 ∧ (entryAddrs 0 16 8)[0]? = some 16 := by
  have h := C1_walk_visits_amended 0 1 8 (Or.inr rfl) Nat.le.refl
  refine ⟨?_, ?_⟩
  · have h1 := h.1
    norm_num at h1
    exact h1
  · have h2 := h.2 0 Nat.one_pos
    norm_num at h2
    exact h2

theorem processEntry_spec (p : Nat) (m : Mem) (base : Nat) (st : WalkSt)
    (addr fa eoff noff : Nat)
    (h1 : get_pointer_at p m addr none = .ok (some fa))
    (h2 : get_pointer_at p m (addr + p) none = .ok (some eoff))
    (h3 : get_pointer_at p m (base + eoff + p) (some 4) = .ok (some noff)) :
    (get_ascii_string_at m (base + noff) = none →
      processEntry p m base st addr = .ok st) ∧
    (∀ name, get_ascii_string_at m (base + noff) = some name →
      ∃ st', processEntry p m base st addr = .ok st' ∧
        fa ∈ st'.functions ∧
        (name.length ≤ 2 →
          st'.symbols = st.symbols ∧ st'.renamed = st.renamed ∧
          (⟨name, fa, addr, base + noff⟩ : Warn) ∈ st'.warns) ∧
        (2 < name.length →
          (fa, gofuncMarker ++ santize_gofunc_name name) ∈ st'.symbols ∧
          st'.renamed = st.renamed + 1)) := by
  constructor
  · intro h4
    simp [processEntry, h1, h2, h3, h4]
  · intro name h4
    by_cases hm : fa ∈ st.functions
    · by_cases hl : 2 < name.length
      · refine ⟨{ st with
            symbols := (fa, gofuncMarker ++ santize_gofunc_name name) :: st.symbols,
            renamed := st.renamed + 1 }, ?_, hm, ?_, ?_⟩
        · simp [processEntry, h1, h2, h3, h4, hm, hl]
        · intro hshort
          omega
        · intro _
          exact ⟨List.mem_cons_self _ _, rfl⟩
      · refine ⟨{ st with warns := ⟨name, fa, addr, base + noff⟩ :: st.warns },
          ?_, hm, ?_, ?_⟩
        · simp [processEntry, h1, h2, h3, h4, hm, hl]
        · intro _
          exact ⟨rfl, rfl, List.mem_cons_self _ _⟩
        · intro hlong
          exact absurd hlong hl
    · by_cases hl : 2 < name.length
      · refine ⟨{ st with
            functions := fa :: st.functions,
            symbols := (fa, gofuncMarker ++ santize_gofunc_name name) :: st.symbols,
            renamed := st.renamed + 1 }, ?_, List.mem_cons_self _ _, ?_, ?_⟩
        · simp [processEntry, h1, h2, h3, h4, hm, hl]
        · intro hshort
          omega
        · intro _
          exact ⟨List.mem_cons_self _ _, rfl⟩
      · refine ⟨{ st with
            functions := fa :: st.functions,
            warns := ⟨name, fa, addr, base + noff⟩ :: st.warns },
          ?_, List.mem_cons_self _ _, ?_, ?_⟩
        · simp [processEntry, h1, h2, h3, h4, hm, hl]
        · intro _
          exact ⟨rfl, rfl, List.mem_cons_self _ _⟩
        · intro hlong
          exact absurd hlong hl

/-- C2 counterexample: the raw name "a b " sanitizes to "ab" (length
2), yet the entry is accepted and a symbol go.ab is defined, because
the source checks the raw length before sanitizing; and the raw name
"ab" is rejected, yet a function is still created at func_addr 500,
because function creation precedes the length check. -/
theorem C2_raw_length_cex :
    (santize_gofunc_name "a b ").length = 2 ∧
    processEntry 4 memSpace 0 ⟨[], [], 0, []⟩ 12 =
      .ok ⟨[500], [(500, "go.ab")], 1, []⟩ ∧
    processEntry 4 memAB 0 ⟨[], [], 0, []⟩ 12 =
      .ok ⟨[500], [], 0, [⟨"ab", 500, 12, 40⟩]⟩ :=
  ⟨by decide, by rfl, by rfl⟩

/-- C2 amended: the naming step checks the raw name's length, not the
sanitized length: a raw name of length at most 2 gets no symbol, an
unchanged counter, and a warning carrying the name, the entry address
and the name address, but a function is still created at func_addr;
a raw name of length at least 3 is accepted and counted. -/
theorem C2_naming_amended (p : Nat) (m : Mem) (base : Nat) (st : WalkSt)
    (addr fa eoff noff : Nat) (name : String)
    (h1 : get_pointer_at p m addr none = .ok (some fa))
    (h2 : get_pointer_at p m (addr + p) none = .ok (some eoff))
    (h3 : get_pointer_at p m (base + eoff + p) (some 4) = .ok (some noff))
    (h4 : get_ascii_string_at m (base + noff) = some name) :
    ∃ st', processEntry p m base st addr = .ok st' ∧
      fa ∈ st'.functions ∧
      (name.length ≤ 2 →
        st'.symbols = st.symbols ∧ st'.renamed = st.renamed ∧
        (⟨name, fa, addr, base + noff⟩ : Warn) ∈ st'.warns) ∧
      (2 < name.length →
        (fa, gofuncMarker ++ santize_gofunc_name name) ∈ st'.symbols ∧
        st'.renamed = st.renamed + 1) :=
  (processEntry_spec p m base st addr fa eoff noff h1 h2 h3).2 name h4

/-- C2 witness: the amended behaviour at the concrete "ab" entry: the
function at 500 is created, no symbol is defined, the counter stays 0,
and the warning holds name, entry address 12 and name address 40. -/
theorem C2_naming_amended_witness :
    ∃ st', processEntry 4 memAB 0 ⟨[], [], 0, []⟩ 12 = .ok st' ∧
      500 ∈ st'.functions ∧ st'.symbols = [] ∧ st'.renamed = 0 ∧
      (⟨"ab", 500, 12, 40⟩ : Warn) ∈ st'.warns := by
  obtain ⟨st', he, hf, hshort, _⟩ :=
    C2_naming_amended 4 memAB 0 ⟨[], [], 0, []⟩ 12 500 20 40 "ab" rfl rfl rfl rfl
  obtain ⟨hs, hr, hw⟩ := hshort (by decide)
  exact ⟨st', he, hf, hs, hr, hw⟩

/-- C10: an entry whose name lookup yields no string is skipped with
the state exactly unchanged (no function, no symbol, no counter or
warning change), while any entry with a non-empty name reaches the
function-creation step and leaves a function at func_addr. -/
theorem C10_no_name_frame (p : Nat) (m : Mem) (base : Nat) (st : WalkSt)
    (addr fa eoff noff : Nat) (name : String)
    (h1 : get_pointer_at p m addr none = .ok (some fa))
    (h2 : get_pointer_at p m (addr + p) none = .ok (some eoff))
    (h3 : get_pointer_at p m (base + eoff + p) (some 4) = .ok (some noff)) :
    (get_ascii_string_at m (base + noff) = none →
      processEntry p m base st addr = .ok st) ∧
    (get_ascii_string_at m (base + noff) = some name →
      ∃ st', processEntry p m base st addr = .ok st' ∧ fa ∈ st'.functions) := by
  obtain ⟨ha, hb⟩ := processEntry_spec p m base st addr fa eoff noff h1 h2 h3
  refine ⟨ha, fun h4 => ?_⟩
  obtain ⟨st', he, hf, _, _⟩ := hb name h4
  exact ⟨st', he, hf⟩

/-- C10 witness: at the concrete entries: the immediately-NUL name at
40 in memNul leaves the empty state untouched, and the non-empty name
"ab" in memAB leaves a created function at 500. -/
theorem C10_no_name_frame_witness :
    processEntry 4 memNul 0 ⟨[], [], 0, []⟩ 12 = .ok ⟨[], [], 0, []⟩ ∧
    ∃ st', processEntry 4 memAB 0 ⟨[], [], 0, []⟩ 12 = .ok st' ∧
      500 ∈ st'.functions := by
  constructor
  · exact (C10_no_name_frame 4 memNul 0 ⟨[], [], 0, []⟩ 12 500 20 40 ""
      rfl rfl rfl).1 rfl
  · exact (C10_no_name_frame 4 memAB 0 ⟨[], [], 0, []⟩ 12 500 20 40 "ab"
      rfl rfl rfl).2 rfl

/-- C4 counterexample: in bvAbort the table is located at 0 and holds
entry addresses 12, 20 and 28; the first entry's func_addr pointer at
12 is unreadable while the entry at 20 is readable, yet the whole run
aborts with an error instead of skipping entry 12 and continuing. -/
theorem C4_abort_cex :
    entryAddrs 0 4 4 = [12, 20, 28] ∧
    readExact bvAbort.mem 12 4 = none ∧
    readExact bvAbort.mem 20 4 = some [1, 0, 0, 0] ∧
    rename_functions 4 bvAbort = .error "TypeError" :=
  ⟨by decide, by decide, by decide, by rfl⟩

/-- C4 amended: only a failed name-string lookup is skipped with the
walk continuing to the next entry; a failed pointer read — func_addr,
entry_offset, or the 4-byte name offset — aborts the whole walk with
an error. -/
theorem C4_per_entry_amended (p : Nat) (m : Mem) (base : Nat) (st : WalkSt)
    (addr : Nat) (rest : List Nat) (fa eoff noff : Nat) :
    (get_pointer_at p m addr none = .ok (some fa) →
      get_pointer_at p m (addr + p) none = .ok (some eoff) →
      get_pointer_at p m (base + eoff + p) (some 4) = .ok (some noff) →
      get_ascii_string_at m (base + noff) = none →
      walkFold p m base (addr :: rest) st = walkFold p m base rest st) ∧
    (get_pointer_at p m addr none = .ok none →
      walkFold p m base (addr :: rest) st = .error "TypeError") ∧
    (get_pointer_at p m addr none = .ok (some fa) →
      get_pointer_at p m (addr + p) none = .ok none →
      walkFold p m base (addr :: rest) st = .error "TypeError") ∧
    (get_pointer_at p m addr none = .ok (some fa) →
      get_pointer_at p m (addr + p) none = .ok (some eoff) →
      get_pointer_at p m (base + eoff + p) (some 4) = .ok none →
      walkFold p m base (addr :: rest) st = .error "TypeError") := by
  refine ⟨?_, ?_, ?_, ?_⟩
  · intro h1 h2 h3 h4
    have hpe : processEntry p m base st addr = .ok st :=
      (processEntry_spec p m base st addr fa eoff noff h1 h2 h3).1 h4
    unfold walkFold
    rw [List.foldlM_cons, hpe]
    rfl
  · intro h1
    have hpe : processEntry p m base st addr = .error "TypeError" := by
      simp [processEntry, h1]
    unfold walkFold
    rw [List.foldlM_cons, hpe]
    rfl
  · intro h1 h2
    have hpe : processEntry p m base st addr = .error "TypeError" := by
      simp [processEntry, h1, h2]
    unfold walkFold
    rw [List.foldlM_cons, hpe]
    rfl
  · intro h1 h2 h3
    have hpe : processEntry p m base st addr = .error "TypeError" := by
      simp [processEntry, h1, h2, h3]
    unfold walkFold
    rw [List.foldlM_cons, hpe]
    rfl

/-- C4 witness: the amended policy at concrete inputs: the NUL-name
entry at 12 is skipped and the walk goes on to 32, and a walk whose
first entry pointer is unreadable (empty memory) errors out. -/
theorem C4_per_entry_amended_witness :
    walkFold 4 memNul 0 [12, 32] ⟨[], [], 0, []⟩ =
      walkFold 4 memNul 0 [32] ⟨[], [], 0, []⟩ ∧
    walkFold 4 [] 0 [12] ⟨[], [], 0, []⟩ = .error "TypeError" := by
  constructor
  · exact (C4_per_entry_amended 4 memNul 0 ⟨[], [], 0, []⟩ 12 [32] 500 20 40).1
      rfl rfl rfl rfl
  · exact (C4_per_entry_amended 4 [] 0 ⟨[], [], 0, []⟩ 12 [] 0 0 0).2.1 rfl

end GoLoader
